import Mathlib

set_option maxRecDepth 20000
set_option maxHeartbeats 1000000

/-!
Formal model of the `domains-mcp` provider-query engine.

The TypeScript sources under `src/` are embedded shallowly:

* network requests are modelled by explicit `FetchOutcome` inputs, one per
  upstream request a function issues: a thrown exception (network error,
  timeout, or a body-reading failure), a non-success HTTP status, or a
  successful parsed response;
* JavaScript strings are Lean `String`s, and the JS string primitives
  (`trim`, `toLowerCase`, `includes`, `endsWith`, `parseInt`, `parseFloat`)
  are re-implemented over `String.data`; case mapping is modelled on the
  ASCII range;
* JS `number` values that may be `NaN` are modelled as `Option Rat`,
  with `none` encoding `NaN`;
* optional or missing JSON fields are `Option` fields; chains of optional
  accesses (`a?.b?.c`) are flattened to a single `Option` field holding the
  value of the chain.
-/

/-- Code points treated as whitespace by the JS `trim` model:
space (32), tab (9), LF (10), CR (13), VT (11), FF (12), NBSP (160). -/
def jsIsWs (c : Char) : Bool :=
  c.toNat == 32 || c.toNat == 9 || c.toNat == 10 || c.toNat == 13 ||
    c.toNat == 11 || c.toNat == 12 || c.toNat == 160

/-- ASCII uppercase letter test (`A`–`Z`). -/
def isAsciiUpper (c : Char) : Bool :=
  65 ≤ c.toNat && c.toNat ≤ 90

/-- JS `toLowerCase` on a single character (ASCII fragment of the Unicode map). -/
def jsLowerChar (c : Char) : Char :=
  if isAsciiUpper c then Char.ofNat (c.toNat + 32) else c

/-- JS `String.prototype.toLowerCase` over the character list. -/
def jsToLowerList (l : List Char) : List Char := l.map jsLowerChar

/-- JS `String.prototype.trim` over the character list. -/
def jsTrimList (l : List Char) : List Char :=
  ((l.dropWhile jsIsWs).reverse.dropWhile jsIsWs).reverse

/-- `s.trim().toLowerCase()`, the canonicalization used throughout the drivers. -/
def jsTrimLower (s : String) : String :=
  String.mk (jsToLowerList (jsTrimList s.data))

/-- Does `pat` occur as a contiguous substring of the list?
(JS `String.prototype.includes`.) -/
def hasSubstr (pat : List Char) : List Char → Bool
  | [] => pat.isEmpty
  | c :: rest => pat.isPrefixOf (c :: rest) || hasSubstr pat rest

/-- JS `s.includes(pat)`. -/
def jsIncludes (s pat : String) : Bool := hasSubstr pat.data s.data

/-- Numeric value of a digit run (most significant first). -/
def digitsVal (l : List Char) : Nat :=
  l.foldl (fun a c => a * 10 + (c.toNat - 48)) 0

/-- JS `parseInt(s, 10)`: skip leading whitespace, read an optional sign and
a maximal run of decimal digits; `none` encodes `NaN` (no digits). -/
def jsParseInt (s : String) : Option Int :=
  let l := s.data.dropWhile jsIsWs
  let signAndRest : Int × List Char :=
    match l with
    | '-' :: t => (-1, t)
    | '+' :: t => (1, t)
    | _ => (1, l)
  let ds := signAndRest.2.takeWhile Char.isDigit
  if ds.isEmpty then none else some (signAndRest.1 * (digitsVal ds : Int))

/-- JS truthiness of an optional string: `undefined`/`null` and the empty
string are falsy. -/
def truthyStr : Option String → Bool
  | none => false
  | some s => !(s == "")

/-! ## Result model (`src/providers/types.ts`) -/

inductive ProviderId where
  | iwantmyname
  | porkbun
  | nicchile
  deriving DecidableEq

/-- The `price` object of a `DomainResult`.  The numeric fields are
`Option Rat`, `none` encoding a JS `NaN`. -/
structure Price where
  registration : Option Rat
  renewal : Option Rat
  currency : String
  deriving DecidableEq

/-- `WhoisData` of `types.ts`. -/
structure WhoisData where
  registrant : Option String
  organization : Option String
  registrar : Option String
  creationDate : Option String
  lastModified : Option String
  expirationDate : Option String
  nameservers : List String
  website : Option String
  deriving DecidableEq

/-- `DomainResult` of `types.ts`.  `status` holds the optional
`"pending_deletion"` marker.  `whois` distinguishes an absent field
(`none`) from an explicit `null` (`some none`) and from data
(`some (some w)`). -/
structure DomainResult where
  domain : String
  available : Bool
  premium : Bool
  price : Option Price
  provider : ProviderId
  status : Option String
  whois : Option (Option WhoisData)
  deriving DecidableEq

/-- `ProviderSearchResult` of `types.ts`. -/
structure ProviderSearchResult where
  provider : ProviderId
  results : List DomainResult
  error : Option String
  deriving DecidableEq

/-- Outcome of one `fetch` call. -/
inductive FetchOutcome (α : Type) where
  | throws (msg : String)
  | notOk (status : Nat)
  | ok (val : α)
  deriving DecidableEq

/-! ## NIC Chile driver (`src/providers/nicchile.ts`) -/

/-- `PRICE_USD` of `nicchile.ts`: the fixed 11.5 USD registration and
renewal rate (written `23 / 2`). -/
def PRICE_USD : Price :=
  { registration := some (23 / 2), renewal := some (23 / 2), currency := "USD" }

/-- Marker phrase signalling an available (nonexistent) domain. -/
def AVAILABLE_MARKER : String := "Nombre de dominio no existe."

/-- Marker phrase signalling a domain pending deletion. -/
def DELETION_MARKER : String := "Este dominio está en proceso de eliminación."

/-- The characters of the `.cl` registry suffix. -/
def clSuffix : List Char := ['.', 'c', 'l']

/-- `normalizeDomain` of `nicchile.ts`: lower-case the trimmed query and
append `.cl` when the suffix is missing. -/
def normalizeDomain (q : String) : String :=
  let ql := jsToLowerList (jsTrimList q.data)
  String.mk (if clSuffix.isSuffixOf ql then ql else ql ++ clSuffix)

/-- `parseDomainResult` of `nicchile.ts`.  The parameter `pw` stands for
`parseWhois`: its DOM traversal of the page (via the external
`node-html-parser` library) is modelled as an oracle from the page body. -/
def parseDomainResult (pw : String → WhoisData) (domain html : String)
    (whoisRequested : Bool) : DomainResult :=
  let available := jsIncludes html AVAILABLE_MARKER
  let pendingDeletion := jsIncludes html DELETION_MARKER
  { domain := domain
    available := available
    premium := false
    price := if available then some PRICE_USD else none
    provider := .nicchile
    status := if pendingDeletion then some "pending_deletion" else none
    whois :=
      if !available && !pendingDeletion && whoisRequested then
        some (some (pw html))
      else if !available then some none
      else none }

/-- `searchNicChile` of `nicchile.ts`; `env` is the outcome of the single
`fetchWhoisPage` call (an `ok` carries the page body). -/
def searchNicChile (pw : String → WhoisData) (query : String) (whois : Bool)
    (env : FetchOutcome String) : ProviderSearchResult :=
  match env with
  | .throws m => { provider := .nicchile, results := [], error := some m }
  | .notOk status =>
      { provider := .nicchile, results := [],
        error := some ("HTTP " ++ toString status ++ " from NIC Chile") }
  | .ok html =>
      { provider := .nicchile,
        results := [parseDomainResult pw (normalizeDomain query) html whois],
        error := none }

/-- The conservative fallback record pushed by `searchNicChileBulk` when a
per-domain request fails. -/
def nicFallback (domain : String) : DomainResult :=
  { domain := domain, available := false, premium := false, price := none,
    provider := .nicchile, status := none, whois := none }

/-- One iteration of the `searchNicChileBulk` loop body: a successful fetch
is parsed, a non-success status or a thrown error yields the fallback. -/
def nicProcessOne (pw : String → WhoisData) (whois : Bool) (domain : String) :
    FetchOutcome String → DomainResult
  | .ok html => parseDomainResult pw domain html whois
  | .notOk _ => nicFallback domain
  | .throws _ => nicFallback domain

/-- The `searchNicChileBulk` loop over the domain list starting at index
`i`; `env i` is the outcome of the request for the `i`-th domain.  The
second component counts the `BULK_DELAY_MS` sleeps, which the loop performs
after every iteration except the last (`i < domains.length - 1`). -/
def nicBulkRun (pw : String → WhoisData) (whois : Bool)
    (env : Nat → FetchOutcome String) : Nat → List String → List DomainResult × Nat
  | _, [] => ([], 0)
  | i, d :: rest =>
    let sub := nicBulkRun pw whois env (i + 1) rest
    (nicProcessOne pw whois (normalizeDomain d) (env i) :: sub.1,
     if rest.isEmpty then sub.2 else sub.2 + 1)

/-- `searchNicChileBulk` of `nicchile.ts`. -/
def searchNicChileBulk (pw : String → WhoisData) (whois : Bool)
    (domains : List String) (env : Nat → FetchOutcome String) : ProviderSearchResult :=
  { provider := .nicchile, results := (nicBulkRun pw whois env 0 domains).1,
    error := none }

/-- Number of inter-request delays performed by a `searchNicChileBulk` call. -/
def searchNicChileBulkDelays (pw : String → WhoisData) (whois : Bool)
    (domains : List String) (env : Nat → FetchOutcome String) : Nat :=
  (nicBulkRun pw whois env 0 domains).2

/-! ## Porkbun driver (`src/providers/porkbun.ts`) -/

/-- The `extended` pricing object of a `PorkbunCheckResult`; optional-access
chains are flattened: `typePricingRegistrationPrice` models
`typePricing?.registration?.price` and `typePricingRenewalPrice` models
`typePricing?.renewal?.price`. -/
structure PorkbunExtended where
  premium : Option Rat
  price : Option String
  typePricingRegistrationPrice : Option String
  typePricingRenewalPrice : Option String
  deriving DecidableEq

/-- `PorkbunCheckResult` of `porkbun.ts`; `typ` models the `type` field.
`result` is kept as a plain string, compared against the literal markers
`"AVAILABLE"` and `"PENDING"` exactly as the code does. -/
structure PorkbunCheckResult where
  domain : String
  tld : String
  result : String
  typ : String
  extended : Option PorkbunExtended
  deriving DecidableEq

/-- `PorkbunResponse` of `porkbun.ts` (the only field the code reads). -/
structure PorkbunResponse where
  results : Option (List PorkbunCheckResult)
  deriving DecidableEq

/-- `r.extended?.typePricing?.registration?.price ?? r.extended?.price`. -/
def pbRegCents (r : PorkbunCheckResult) : Option String :=
  (r.extended.bind (fun e => e.typePricingRegistrationPrice)).orElse
    (fun _ => r.extended.bind (fun e => e.price))

/-- `r.extended?.typePricing?.renewal?.price`. -/
def pbRenewCents (r : PorkbunCheckResult) : Option String :=
  r.extended.bind (fun e => e.typePricingRenewalPrice)

/-- `parsePorkbunResult` of `porkbun.ts`. -/
def parsePorkbunResult (r : PorkbunCheckResult) : DomainResult :=
  let available := r.result == "AVAILABLE"
  let premium := decide (0 < (r.extended.bind (fun e => e.premium)).getD 0)
  let price : Option Price :=
    match pbRegCents r with
    | some s =>
      if s == "" then none
      else
        let reg := (jsParseInt s).map (fun n : Int => (n : Rat) / 100)
        let renew :=
          match pbRenewCents r with
          | some s2 =>
            if s2 == "" then reg
            else (jsParseInt s2).map (fun n : Int => (n : Rat) / 100)
          | none => reg
        match reg with
        | some rv =>
          some { registration := some rv, renewal := renew, currency := "USD" }
        | none => none
    | none => none
  { domain := r.domain, available := available, premium := premium,
    price := price, provider := .porkbun, status := none, whois := none }

/-- The porkbun backoff schedule `DELAYS` (milliseconds). -/
def PORKBUN_DELAYS : List Nat := [500, 500, 500, 1000, 2000, 3000, 3000, 3000, 3000, 3000]

/-- `MAX_ATTEMPTS = DELAYS.length`. -/
def PORKBUN_MAX_ATTEMPTS : Nat := PORKBUN_DELAYS.length

/-- The `pollForResults` loop of `porkbun.ts`, at attempt number `attempt`
with `fuel` attempts remaining (invoked with
`fuel = PORKBUN_MAX_ATTEMPTS - attempt`).  `env a` is the outcome of the
`getChecks` request of attempt `a`.  A thrown exception propagates to the
caller (`Except.error`); exhausting every attempt returns the empty list. -/
def pollAux (env : Nat → FetchOutcome PorkbunResponse) :
    Nat → Nat → Except String (List DomainResult)
  | _, 0 => .ok []
  | attempt, fuel + 1 =>
    match env attempt with
    | .throws m => .error m
    | .notOk _ => pollAux env (attempt + 1) fuel
    | .ok data =>
      match data.results with
      | none => pollAux env (attempt + 1) fuel
      | some rs =>
        if rs.isEmpty then pollAux env (attempt + 1) fuel
        else
          let hasPending := rs.any (fun r => r.result == "PENDING")
          if hasPending && decide (attempt < PORKBUN_MAX_ATTEMPTS - 1) then
            pollAux env (attempt + 1) fuel
          else
            .ok ((rs.filter (fun r => !(r.result == "PENDING"))).map parsePorkbunResult)

/-- `pollForResults` of `porkbun.ts`. -/
def pollForResults (env : Nat → FetchOutcome PorkbunResponse) :
    Except String (List DomainResult) :=
  pollAux env 0 PORKBUN_MAX_ATTEMPTS

/-- Session-bearing data extracted from the porkbun search page: the results
of the `checkId` and `searchHash` regex matches and the parsed `Set-Cookie`
map (entries in insertion order). -/
structure PorkbunPage where
  checkIdMatch : Option String
  searchHashMatch : Option String
  cookies : List (String × String)
  deriving DecidableEq

/-- `SessionInfo` of `porkbun.ts`. -/
structure SessionInfo where
  checkId : String
  searchHash : String
  csrfPb : String
  cookieHeader : String
  deriving DecidableEq

/-- `Map.get` over the cookie entries. -/
def cookieLookup : List (String × String) → String → Option String
  | [], _ => none
  | (k, v) :: rest, key => if k == key then some v else cookieLookup rest key

/-- `[...cookies.entries()].map(([k, v]) => k + "=" + v).join("; ")`. -/
def cookieHeaderOf (cookies : List (String × String)) : String :=
  String.intercalate "; " (cookies.map (fun kv => kv.1 ++ "=" ++ kv.2))

/-- `parseSession` of `porkbun.ts`. -/
def parseSession (p : PorkbunPage) : Option SessionInfo :=
  match p.checkIdMatch, p.searchHashMatch with
  | some checkId, some searchHash =>
    let csrfPb := (cookieLookup p.cookies "csrf_pb").getD ""
    if csrfPb == "" then none
    else some { checkId := checkId, searchHash := searchHash, csrfPb := csrfPb,
                cookieHeader := cookieHeaderOf p.cookies }
  | _, _ => none

/-- The two upstream interactions of `searchPorkbun`: the search-page fetch
and the polling requests. -/
structure PorkbunEnv where
  page : FetchOutcome PorkbunPage
  poll : Nat → FetchOutcome PorkbunResponse

/-- `searchPorkbun` of `porkbun.ts`. -/
def searchPorkbun (query : String) (env : PorkbunEnv) : ProviderSearchResult :=
  match env.page with
  | .throws m => ⟨.porkbun, [], some m⟩
  | .notOk status =>
      ⟨.porkbun, [], some ("HTTP " ++ toString status ++ " from search page")⟩
  | .ok page =>
    match parseSession page with
    | none => ⟨.porkbun, [], some "Could not extract session from Porkbun page"⟩
    | some _ =>
      match pollForResults env.poll with
      | .error m => ⟨.porkbun, [], some m⟩
      | .ok results => ⟨.porkbun, results, none⟩

/-- Data extracted from the initial bulk search page: the cookie map and the
optional `prb` hidden-field match. -/
structure PorkbunBulkInit where
  cookies : List (String × String)
  prbMatch : Option String
  deriving DecidableEq

/-- The three upstream interactions of `searchPorkbunBulk`. -/
structure PorkbunBulkEnv where
  init : FetchOutcome PorkbunBulkInit
  bulk : FetchOutcome PorkbunPage
  poll : Nat → FetchOutcome PorkbunResponse

/-- `Map.set` semantics: override in place or append. -/
def mapSet (m : List (String × String)) (k v : String) : List (String × String) :=
  match m with
  | [] => [(k, v)]
  | (k0, v0) :: rest => if k0 == k then (k0, v) :: rest else (k0, v0) :: mapSet rest k v

/-- `new Map([...a, ...b])`: entries of `b` override entries of `a`. -/
def mergeCookies (a : List (String × String)) : List (String × String) → List (String × String)
  | [] => a
  | (k, v) :: rest => mergeCookies (mapSet a k v) rest

/-- `searchPorkbunBulk` of `porkbun.ts`.  The merged cookie header, the
`prb` token and the final csrf value feed only the outgoing requests, whose
responses the environment already carries. -/
def searchPorkbunBulk (domains : List String) (env : PorkbunBulkEnv) :
    ProviderSearchResult :=
  match env.init with
  | .throws m => ⟨.porkbun, [], some m⟩
  | .notOk status =>
      ⟨.porkbun, [], some ("HTTP " ++ toString status ++ " from search page")⟩
  | .ok initData =>
    let csrfPb := (cookieLookup initData.cookies "csrf_pb").getD ""
    if csrfPb == "" then
      ⟨.porkbun, [], some "Could not extract csrf_pb cookie from Porkbun"⟩
    else
      match env.bulk with
      | .throws m => ⟨.porkbun, [], some m⟩
      | .notOk status =>
          ⟨.porkbun, [], some ("HTTP " ++ toString status ++ " from bulk search")⟩
      | .ok bulkPage =>
        match bulkPage.checkIdMatch, bulkPage.searchHashMatch with
        | some _, some _ =>
          match pollForResults env.poll with
          | .error m => ⟨.porkbun, [], some m⟩
          | .ok results => ⟨.porkbun, results, none⟩
        | _, _ =>
            ⟨.porkbun, [],
             some "Could not extract checkId/searchHash from bulk response"⟩

/-! ## iwantmyname driver (`src/providers/iwantmyname.ts`) -/

/-- Prepare-status constants of `iwantmyname.ts`. -/
def STATUS_AVAILABLE : Int := 4

def STATUS_UNAVAILABLE : Int := 7

def STATUS_RESERVED : Int := 8

def STATUS_PREREGISTRATION : Int := 9

/-- `HTML_ENTITIES` of `iwantmyname.ts`. -/
def HTML_ENTITIES : List (String × String) :=
  [("&#36;", "$"), ("&euro;", "€"), ("&pound;", "£"), ("&amp;", "&"),
   ("&lt;", "<"), ("&gt;", ">"), ("&quot;", "\"")]

/-- `\w` character class (`[A-Za-z0-9_]`). -/
def isWordChar (c : Char) : Bool := c.isAlphanum || c == '_'

/-- Try to match the tail of the regex `&#?\w+;` right after a `&`; returns
the full matched text (including the `&` and `;`) and the remaining
characters. -/
def tryEntity (l : List Char) : Option (String × List Char) :=
  let hashAndRest : String × List Char :=
    match l with
    | '#' :: t => ("#", t)
    | _ => ("", l)
  let w := hashAndRest.2.takeWhile isWordChar
  match w, hashAndRest.2.dropWhile isWordChar with
  | [], _ => none
  | _, ';' :: r2 => some ("&" ++ hashAndRest.1 ++ String.mk w ++ ";", r2)
  | _, _ => none

/-- `HTML_ENTITIES[m] ?? m`. -/
def lookupEntity (m : String) : String :=
  match HTML_ENTITIES.lookup m with
  | some v => v
  | none => m

/-- `decodeHtmlEntities`: left-to-right global replacement of `&#?\w+;`
matches (unknown entities are kept verbatim).  `fuel` bounds the scan; the
wrapper passes the character count, which suffices because every step
consumes at least one character. -/
def decodeAux : Nat → List Char → List Char
  | 0, l => l
  | _ + 1, [] => []
  | fuel + 1, c :: rest =>
    if c == '&' then
      match tryEntity rest with
      | some (m, r2) => (lookupEntity m).data ++ decodeAux fuel r2
      | none => c :: decodeAux fuel rest
    else c :: decodeAux fuel rest

/-- `decodeHtmlEntities` of `iwantmyname.ts`. -/
def decodeHtmlEntities (s : String) : String :=
  String.mk (decodeAux s.data.length s.data)

/-- JS `parseFloat` restricted to strings over the alphabet `[0-9.]`, the
only alphabet reachable after the `replace(/[^0-9.]/g, "")` strip. -/
def parseFloatDigitsDots (l : List Char) : Option Rat :=
  let ip := l.takeWhile Char.isDigit
  match l.dropWhile Char.isDigit with
  | '.' :: r2 =>
    let fp := r2.takeWhile Char.isDigit
    if ip.isEmpty && fp.isEmpty then none
    else some ((digitsVal ip : Rat) + (digitsVal fp : Rat) / (10 : Rat) ^ fp.length)
  | _ => if ip.isEmpty then none else some ((digitsVal ip : Rat))

/-- `parsePrice` of `iwantmyname.ts`:
`parseFloat(decodeHtmlEntities(s).replace(/[^0-9.]/g, ""))`. -/
def parsePrice (s : String) : Option Rat :=
  parseFloatDigitsDots
    ((decodeHtmlEntities s).data.filter (fun c => c.isDigit || c == '.'))

/-- `PrepareItem` of `iwantmyname.ts`; optional chains are flattened
(`pricesUSDPrice` models `prices?.USD?.price`, `renewalPricesUSD` models
`renewalPrices?.USD`).  An absent or empty `domain` is skipped by the parse
loop (`if (!item.domain) continue`), so `domain` is a plain string with `""`
standing for any falsy value. -/
structure PrepareItem where
  domain : String
  status : Option Int
  pricesUSDPrice : Option String
  renewalPricesUSD : Option String
  premium : Option String
  deriving DecidableEq

/-- `PrepareResponse` of `iwantmyname.ts` (the fields the code reads). -/
structure PrepareResponse where
  errMsg : Option String
  data : Option (List PrepareItem)
  deriving DecidableEq

/-- `CheckResponse` of `iwantmyname.ts`: the `result` status map, as an
association list in upstream order. -/
structure CheckResponse where
  result : Option (List (String × Int))
  deriving DecidableEq

/-- The price computation of the prepare-parse loop for one item. -/
def iwmyPrice (item : PrepareItem) : Option Price :=
  match item.pricesUSDPrice with
  | some s =>
    if s == "" then none
    else
      let regNum := parsePrice s
      let renewNum :=
        match item.renewalPricesUSD with
        | some s2 => if s2 == "" then regNum else parsePrice s2
        | none => regNum
      match regNum with
      | some rv =>
        some { registration := some rv, renewal := renewNum, currency := "USD" }
      | none => none
  | none => none

/-- The `DomainResult` pushed by the prepare-parse loop for one item. -/
def iwmyItemResult (item : PrepareItem) (available : Bool) : DomainResult :=
  { domain := item.domain, available := available,
    premium := item.premium == some "y",
    price := iwmyPrice item, provider := .iwantmyname, status := none,
    whois := none }

/-- The prepare-response parse loop of `doSearch`: returns the result list
and the pending-domain list, both in push order. -/
def prepParse : List PrepareItem → List DomainResult × List String
  | [] => ([], [])
  | item :: rest =>
    let sub := prepParse rest
    if item.domain == "" then sub
    else if item.status == some STATUS_AVAILABLE ||
        item.status == some STATUS_PREREGISTRATION then
      (iwmyItemResult item true :: sub.1, sub.2)
    else if item.status == some STATUS_UNAVAILABLE ||
        item.status == some STATUS_RESERVED then
      (iwmyItemResult item false :: sub.1, sub.2)
    else
      (iwmyItemResult item false :: sub.1, item.domain :: sub.2)

/-- The `chunkSize = 30` slicing loop of `checkAvailability`
(`domains.slice(i, i + chunkSize)` for `i = 0, n, 2n, ...`). -/
def chunksOf (n : Nat) (l : List α) : List (List α) :=
  match l, n with
  | [], _ => []
  | _, 0 => []
  | a :: rest, m + 1 => (a :: rest).take (m + 1) :: chunksOf (m + 1) (rest.drop m)
termination_by l.length
decreasing_by
  simp only [List.length_drop, List.length_cons]
  omega

/-- First rejection among the `k` chunk requests starting at index `i`,
scanned in chunk order.  (The completion order of `Promise.all` is not
observable through the outcome: any rejection discards `allResults`
entirely.) -/
def firstThrow (env : Nat → FetchOutcome CheckResponse) : Nat → Nat → Option String
  | _, 0 => none
  | i, k + 1 =>
    match env i with
    | .throws m => some m
    | _ => firstThrow env (i + 1) k

/-- One key assignment of `Object.assign` into the accumulator record. -/
def recSet (m : List (String × Int)) (k : String) (v : Int) : List (String × Int) :=
  match m with
  | [] => [(k, v)]
  | (k0, v0) :: rest => if k0 == k then (k0, v) :: rest else (k0, v0) :: recSet rest k v

/-- `Object.assign(base, m)`. -/
def recAssign (base : List (String × Int)) : List (String × Int) → List (String × Int)
  | [] => base
  | (k, v) :: rest => recAssign (recSet base k v) rest

/-- Property lookup on the accumulator record (`allResults[domain]`). -/
def recLookup : List (String × Int) → String → Option Int
  | [], _ => none
  | (k, v) :: rest, key => if k == key then some v else recLookup rest key

/-- Merge the successful chunk responses into the accumulator, in chunk
order: a non-success status or a response without a `result` field
contributes nothing. -/
def collectChecks (env : Nat → FetchOutcome CheckResponse) :
    Nat → Nat → List (String × Int) → List (String × Int)
  | _, 0, acc => acc
  | i, k + 1, acc =>
    match env i with
    | .ok data =>
      match data.result with
      | some m => collectChecks env (i + 1) k (recAssign acc m)
      | none => collectChecks env (i + 1) k acc
    | _ => collectChecks env (i + 1) k acc

/-- `checkAvailability` of `iwantmyname.ts`; `env i` is the outcome of the
request for chunk `i`.  A rejected chunk request rejects the whole
`Promise.all` (`Except.error`); otherwise the merged map is returned, or
`none` when it is empty. -/
def checkAvailability (domains : List String)
    (env : Nat → FetchOutcome CheckResponse) :
    Except String (Option (List (String × Int))) :=
  let chunks := chunksOf 30 domains
  match firstThrow env 0 chunks.length with
  | some m => .error m
  | none =>
    let allResults := collectChecks env 0 chunks.length []
    .ok (if allResults.isEmpty then none else some allResults)

/-- The in-place update of one result after a successful secondary check:
`if (status !== undefined) result.available = ...`. -/
def applyCheck (m : List (String × Int)) (r : DomainResult) : DomainResult :=
  match recLookup m r.domain with
  | some status =>
    { r with available :=
        status == STATUS_AVAILABLE || status == STATUS_PREREGISTRATION }
  | none => r

/-- The two upstream interactions of `doSearch`: the prepare request and the
per-chunk secondary-check requests. -/
structure IwmyEnv where
  prepare : FetchOutcome PrepareResponse
  chunk : Nat → FetchOutcome CheckResponse

/-- `doSearch` of `iwantmyname.ts`. -/
def doSearch (domainName : String) (env : IwmyEnv) : ProviderSearchResult :=
  match env.prepare with
  | .throws m => ⟨.iwantmyname, [], some m⟩
  | .notOk status =>
      ⟨.iwantmyname, [], some ("HTTP " ++ toString status ++ " from prepare endpoint")⟩
  | .ok prepare =>
    if truthyStr prepare.errMsg then ⟨.iwantmyname, [], prepare.errMsg⟩
    else
      let parsed := prepParse (prepare.data.getD [])
      if parsed.2.isEmpty then ⟨.iwantmyname, parsed.1, none⟩
      else
        match checkAvailability parsed.2 env.chunk with
        | .error m => ⟨.iwantmyname, [], some m⟩
        | .ok none => ⟨.iwantmyname, parsed.1, none⟩
        | .ok (some checkResults) =>
          ⟨.iwantmyname, parsed.1.map (applyCheck checkResults), none⟩

/-- `searchIwantmyname` of `iwantmyname.ts`. -/
def searchIwantmyname (query : String) (env : IwmyEnv) : ProviderSearchResult :=
  doSearch (jsTrimLower query) env

/-- `searchIwantmynameBulk` of `iwantmyname.ts`. -/
def searchIwantmynameBulk (domains : List String) (env : IwmyEnv) : ProviderSearchResult :=
  doSearch (String.intercalate "\n" (domains.map jsTrimLower)) env

/-! ## Aggregator (`src/index.ts`) -/

/-- JS `s.toLowerCase()` (ASCII fragment). -/
def jsLower (s : String) : String := String.mk (jsToLowerList s.data)

/-- `filterExact` of `index.ts`. -/
def filterExact (results : List ProviderSearchResult) (query : String) :
    List ProviderSearchResult :=
  let target := jsTrimLower query
  results.map (fun r =>
    { r with results := r.results.filter (fun d => jsLower d.domain == target) })

/-- `filterDomains` of `index.ts`; the `Set` membership test is list
membership over the normalized targets. -/
def filterDomains (results : List ProviderSearchResult) (domains : List String) :
    List ProviderSearchResult :=
  let targets := domains.map jsTrimLower
  results.map (fun r =>
    { r with results := r.results.filter (fun d => targets.contains (jsLower d.domain)) })

/-- The `search_domains` tool handler: fan out to the three drivers
(`Promise.all` keeps the request order), then optionally apply the exact
filter. -/
def search_domains (pw : String → WhoisData) (query : String) (exact whois : Bool)
    (envIw : IwmyEnv) (envPb : PorkbunEnv) (envNic : FetchOutcome String) :
    List ProviderSearchResult :=
  let results := [searchIwantmyname query envIw, searchPorkbun query envPb,
                  searchNicChile pw query whois envNic]
  if exact then filterExact results query else results

/-- The `bulk_search_domains` tool handler. -/
def bulk_search_domains (pw : String → WhoisData) (domains : List String) (whois : Bool)
    (envIw : IwmyEnv) (envPb : PorkbunBulkEnv) (envNic : Nat → FetchOutcome String) :
    List ProviderSearchResult :=
  let results := [searchIwantmynameBulk domains envIw, searchPorkbunBulk domains envPb,
                  searchNicChileBulk pw whois domains envNic]
  filterDomains results domains

/-- A fetch outcome on which the bulk loop takes its fallback path
(a thrown error or a non-success HTTP status). -/
def fetchFailed : FetchOutcome String → Bool
  | .ok _ => false
  | .notOk _ => true
  | .throws _ => true

/-- A trivial WHOIS oracle used to instantiate concrete runs. -/
def nicDemoWhois : WhoisData :=
  ⟨none, none, none, none, none, none, [], none⟩

/-- A concrete `parseWhois` oracle. -/
def nicDemoPw : String → WhoisData := fun _ => nicDemoWhois

/-- A concrete bulk environment whose second request returns HTTP 500. -/
def nicDemoEnv : Nat → FetchOutcome String :=
  fun i => if i == 1 then .notOk 500 else .ok "pagina"

/-- A page body containing both marker phrases. -/
def bothMarkersHtml : String :=
  "Nombre de dominio no existe. Este dominio está en proceso de eliminación."

/-- A porkbun check item that stays PENDING. -/
def pendingItem : PorkbunCheckResult :=
  { domain := "b.com", tld := "com", result := "PENDING", typ := "registration",
    extended := none }

/-- A porkbun check item that resolves as available. -/
def demoAvailItem : PorkbunCheckResult :=
  { domain := "a.com", tld := "com", result := "AVAILABLE", typ := "registration",
    extended := none }

/-- A polling environment whose batches are all-PENDING on attempts 0-8 and
resolved on the final attempt. -/
def demoRespOf : Nat → List PorkbunCheckResult :=
  fun i => if i < 9 then [pendingItem] else [demoAvailItem]

/-- A polling environment that reports the PENDING item on every attempt,
the last included. -/
def allPendingEnv : Nat → FetchOutcome PorkbunResponse :=
  fun _ => .ok ⟨some [pendingItem]⟩

/-- The concrete prepare item behind the C8 scenario. -/
def r1999 : PorkbunCheckResult :=
  { domain := "c.com", tld := "com", result := "AVAILABLE", typ := "registration",
    extended := some { premium := none, price := some "1999",
                       typePricingRegistrationPrice := none,
                       typePricingRenewalPrice := none } }

/-- The porkbun item reporting a negative cents string. -/
def rNegCents : PorkbunCheckResult :=
  { domain := "n.com", tld := "com", result := "UNAVAILABLE", typ := "registration",
    extended := some { premium := none, price := some "-500",
                       typePricingRegistrationPrice := none,
                       typePricingRenewalPrice := none } }

/-! ## Lemmas for the iwantmyname secondary-check chunking -/

/-- Prepare statuses outside the four explicit buckets: the item is pushed
as pending (`available = false`) and queued for the secondary check. -/
def isPendingStatus (st : Option Int) : Bool :=
  !(st == some STATUS_AVAILABLE || st == some STATUS_PREREGISTRATION) &&
    !(st == some STATUS_UNAVAILABLE || st == some STATUS_RESERVED)

/-- Did this chunk request reject (throw)? -/
def isChunkThrow : FetchOutcome CheckResponse → Bool
  | .throws _ => true
  | _ => false

/-- A chunk whose response is missing or non-success: it contributes nothing
to the merged map. -/
def chunkNoData : FetchOutcome CheckResponse → Bool
  | .notOk _ => true
  | .ok data => data.result.isNone
  | .throws _ => false

/-- The map contributed by one chunk outcome. -/
def chunkMap : FetchOutcome CheckResponse → List (String × Int)
  | .ok data => data.result.getD []
  | _ => []

/-- 45 concrete prepare items, all with an out-of-bucket status. -/
def demoItems45 : List PrepareItem :=
  (List.range 45).map (fun i =>
    { domain := "d" ++ toString i, status := none, pricesUSDPrice := none,
      renewalPricesUSD := none, premium := none })

/-- Chunk 0 answers with an empty map; chunk 1 fails with HTTP 500. -/
def demoChunkEnv : Nat → FetchOutcome CheckResponse :=
  fun i => if i == 0 then .ok ⟨some []⟩ else .notOk 500

/-! ## Theorems -/

/-! ## General lemmas about the string model -/

theorem isAsciiUpper_bounds (c : Char) (h : isAsciiUpper c = true) :
    65 ≤ c.toNat ∧ c.toNat ≤ 90 := by
  simpa [isAsciiUpper, Bool.and_eq_true, decide_eq_true_eq] using h

theorem jsLowerChar_toNat (c : Char) (h : isAsciiUpper c = true) :
    (jsLowerChar c).toNat = c.toNat + 32 := by
  have hb := isAsciiUpper_bounds c h
  unfold jsLowerChar
  rw [if_pos h]
  unfold Char.ofNat
  rw [dif_pos (Or.inl (by omega : c.toNat + 32 < 55296))]
  rfl

theorem jsLowerChar_fix (c : Char) (h : isAsciiUpper c = false) :
    jsLowerChar c = c := by
  simp [jsLowerChar, h]

theorem isAsciiUpper_jsLowerChar (c : Char) : isAsciiUpper (jsLowerChar c) = false := by
  cases h : isAsciiUpper c with
  | true =>
    have ht := jsLowerChar_toNat c h
    have hb := isAsciiUpper_bounds c h
    simp only [isAsciiUpper, ht, Bool.and_eq_false_iff, decide_eq_false_iff_not]
    omega
  | false => rw [jsLowerChar_fix c h]; exact h

theorem jsLowerChar_idem (c : Char) : jsLowerChar (jsLowerChar c) = jsLowerChar c :=
  jsLowerChar_fix _ (isAsciiUpper_jsLowerChar c)

theorem jsIsWs_jsLowerChar (c : Char) (h : jsIsWs c = false) :
    jsIsWs (jsLowerChar c) = false := by
  cases hu : isAsciiUpper c with
  | true =>
    have ht := jsLowerChar_toNat c hu
    have hb := isAsciiUpper_bounds c hu
    simp only [jsIsWs, ht, Bool.or_eq_false_iff, beq_eq_false_iff_ne, ne_eq]
    omega
  | false => rw [jsLowerChar_fix c hu]; exact h

theorem head?_dropWhile_all (p : Char → Bool) (l : List Char) :
    ((l.dropWhile p).head?).all (fun c => !p c) = true := by
  induction l with
  | nil => rfl
  | cons a t ih =>
    cases h : p a with
    | true => simpa [List.dropWhile_cons, h] using ih
    | false => simp [List.dropWhile_cons, h]

theorem dropWhile_eq_self_of_head (p : Char → Bool) (l : List Char)
    (h : (l.head?).all (fun c => !p c) = true) : l.dropWhile p = l := by
  cases l with
  | nil => rfl
  | cons a t =>
    have ha : p a = false := by simpa using h
    simp [List.dropWhile_cons, ha]

theorem getLast?_dropWhile (p : Char → Bool) (l : List Char)
    (h : l.dropWhile p ≠ []) : (l.dropWhile p).getLast? = l.getLast? := by
  obtain ⟨t, ht⟩ := List.dropWhile_suffix (l := l) p
  conv_rhs => rw [← ht]
  exact (List.getLast?_append_of_ne_nil _ h).symm

theorem jsTrimList_getLast (l : List Char) :
    ((jsTrimList l).getLast?).all (fun c => !jsIsWs c) = true := by
  unfold jsTrimList
  rw [List.getLast?_reverse]
  exact head?_dropWhile_all jsIsWs _

theorem jsTrimList_head (l : List Char) :
    ((jsTrimList l).head?).all (fun c => !jsIsWs c) = true := by
  unfold jsTrimList
  rw [List.head?_reverse]
  by_cases hE : (l.dropWhile jsIsWs).reverse.dropWhile jsIsWs = []
  · rw [hE]; rfl
  · rw [getLast?_dropWhile _ _ hE, List.getLast?_reverse]
    exact head?_dropWhile_all jsIsWs l

theorem jsTrimList_fix (l : List Char)
    (h1 : (l.head?).all (fun c => !jsIsWs c) = true)
    (h2 : (l.getLast?).all (fun c => !jsIsWs c) = true) : jsTrimList l = l := by
  unfold jsTrimList
  rw [dropWhile_eq_self_of_head jsIsWs l h1]
  rw [dropWhile_eq_self_of_head jsIsWs l.reverse (by rw [List.head?_reverse]; exact h2)]
  exact List.reverse_reverse l

theorem map_eq_self_of_fix {f : Char → Char} :
    ∀ l : List Char, (∀ c ∈ l, f c = c) → l.map f = l
  | [], _ => rfl
  | c :: t, h => by
    rw [List.map_cons, h c (List.mem_cons_self c t),
      map_eq_self_of_fix t (fun x hx => h x (List.mem_cons_of_mem c hx))]

theorem mem_jsToLowerList_fix (l : List Char) (c : Char) (hc : c ∈ jsToLowerList l) :
    jsLowerChar c = c := by
  obtain ⟨a, _, rfl⟩ := List.mem_map.mp hc
  exact jsLowerChar_idem a

/-! ## Lemmas about `normalizeDomain` -/

theorem normalizeDomain_data (q : String) :
    (normalizeDomain q).data =
      (if clSuffix.isSuffixOf (jsToLowerList (jsTrimList q.data)) then
        jsToLowerList (jsTrimList q.data)
      else jsToLowerList (jsTrimList q.data) ++ clSuffix) := rfl

theorem normalizeDomain_suffix (q : String) :
    clSuffix.isSuffixOf (normalizeDomain q).data = true := by
  rw [normalizeDomain_data]
  cases h : clSuffix.isSuffixOf (jsToLowerList (jsTrimList q.data)) with
  | true => simpa [h] using h
  | false =>
    simp only [h, if_false, Bool.false_eq_true]
    exact List.isSuffixOf_iff_suffix.mpr (List.suffix_append _ _)

theorem head_lower_trim (l : List Char) :
    ((jsToLowerList (jsTrimList l)).head?).all (fun c => !jsIsWs c) = true := by
  unfold jsToLowerList
  rw [List.head?_map]
  have h := jsTrimList_head l
  cases hh : (jsTrimList l).head? with
  | none => rfl
  | some a =>
    rw [hh] at h
    have ha : jsIsWs a = false := by simpa using h
    simpa using jsIsWs_jsLowerChar a ha

theorem normalizeDomain_head (q : String) :
    ((normalizeDomain q).data.head?).all (fun c => !jsIsWs c) = true := by
  rw [normalizeDomain_data]
  cases h : clSuffix.isSuffixOf (jsToLowerList (jsTrimList q.data)) with
  | true => simpa [h] using head_lower_trim q.data
  | false =>
    simp only [h, if_false, Bool.false_eq_true]
    rw [List.head?_append]
    have hq := head_lower_trim q.data
    cases hh : (jsToLowerList (jsTrimList q.data)).head? with
    | none => decide
    | some a => rw [hh] at hq; simpa using hq

theorem normalizeDomain_getLast (q : String) :
    (normalizeDomain q).data.getLast? = some 'l' := by
  rw [normalizeDomain_data]
  cases h : clSuffix.isSuffixOf (jsToLowerList (jsTrimList q.data)) with
  | true =>
    obtain ⟨t, ht⟩ := List.isSuffixOf_iff_suffix.mp h
    simp only [h, if_true]
    rw [← ht, List.getLast?_append_of_ne_nil _ (by decide : clSuffix ≠ [])]
    rfl
  | false =>
    simp only [h, if_false, Bool.false_eq_true]
    rw [List.getLast?_append_of_ne_nil _ (by decide : clSuffix ≠ [])]
    rfl

theorem normalizeDomain_noUpper (q : String) :
    (normalizeDomain q).data.all (fun c => !isAsciiUpper c) = true := by
  have hql : (jsToLowerList (jsTrimList q.data)).all (fun c => !isAsciiUpper c) = true := by
    unfold jsToLowerList
    rw [List.all_map]
    apply List.all_eq_true.mpr
    intro c _
    simp [isAsciiUpper_jsLowerChar]
  rw [normalizeDomain_data]
  cases h : clSuffix.isSuffixOf (jsToLowerList (jsTrimList q.data)) with
  | true => simpa [h] using hql
  | false =>
    simp only [h, if_false, Bool.false_eq_true, List.all_append]
    rw [hql]
    decide

theorem normalizeDomain_chars_fix (q : String) :
    ∀ c ∈ (normalizeDomain q).data, jsLowerChar c = c := by
  rw [normalizeDomain_data]
  cases h : clSuffix.isSuffixOf (jsToLowerList (jsTrimList q.data)) with
  | true =>
    simp only [h, if_true]
    exact mem_jsToLowerList_fix _
  | false =>
    simp only [h, if_false, Bool.false_eq_true]
    intro c hc
    rcases List.mem_append.mp hc with hc | hc
    · exact mem_jsToLowerList_fix _ c hc
    · simp only [clSuffix, List.mem_cons, List.not_mem_nil, or_false] at hc
      rcases hc with rfl | rfl | rfl <;> decide

theorem normalizeDomain_idem (q : String) :
    normalizeDomain (normalizeDomain q) = normalizeDomain q := by
  have htrim : jsTrimList (normalizeDomain q).data = (normalizeDomain q).data :=
    jsTrimList_fix _ (normalizeDomain_head q)
      (by rw [normalizeDomain_getLast]; rfl)
  have hlower : jsToLowerList (normalizeDomain q).data = (normalizeDomain q).data :=
    map_eq_self_of_fix _ (normalizeDomain_chars_fix q)
  have hstep : normalizeDomain (normalizeDomain q) =
      String.mk
        (if clSuffix.isSuffixOf (jsToLowerList (jsTrimList (normalizeDomain q).data)) then
          jsToLowerList (jsTrimList (normalizeDomain q).data)
        else jsToLowerList (jsTrimList (normalizeDomain q).data) ++ clSuffix) := rfl
  rw [hstep, htrim, hlower, normalizeDomain_suffix q, if_pos rfl]

/-! ## Lemmas about the NIC Chile bulk loop -/

theorem nicBulkRun_delays (pw : String → WhoisData) (w : Bool)
    (env : Nat → FetchOutcome String) :
    ∀ (ds : List String) (i : Nat), (nicBulkRun pw w env i ds).2 = ds.length - 1 := by
  intro ds
  induction ds with
  | nil => intro i; rfl
  | cons d rest ih =>
    intro i
    cases rest with
    | nil => simp [nicBulkRun]
    | cons e t =>
      have hstep : (nicBulkRun pw w env i (d :: e :: t)).2 =
          (nicBulkRun pw w env (i + 1) (e :: t)).2 + 1 := rfl
      rw [hstep, ih (i + 1)]
      simp only [List.length_cons]
      omega

theorem nicBulkRun_length (pw : String → WhoisData) (w : Bool)
    (env : Nat → FetchOutcome String) :
    ∀ (ds : List String) (i : Nat), (nicBulkRun pw w env i ds).1.length = ds.length := by
  intro ds
  induction ds with
  | nil => intro i; rfl
  | cons d rest ih =>
    intro i
    have hstep : (nicBulkRun pw w env i (d :: rest)).1 =
        nicProcessOne pw w (normalizeDomain d) (env i) ::
          (nicBulkRun pw w env (i + 1) rest).1 := rfl
    rw [hstep, List.length_cons, ih (i + 1), List.length_cons]

theorem nicBulkRun_getElem (pw : String → WhoisData) (w : Bool)
    (env : Nat → FetchOutcome String) :
    ∀ (ds : List String) (i j : Nat) (d : String), ds[j]? = some d →
      (nicBulkRun pw w env i ds).1[j]? =
        some (nicProcessOne pw w (normalizeDomain d) (env (i + j))) := by
  intro ds
  induction ds with
  | nil => intro i j d h; simp at h
  | cons a rest ih =>
    intro i j d h
    have hstep : (nicBulkRun pw w env i (a :: rest)).1 =
        nicProcessOne pw w (normalizeDomain a) (env i) ::
          (nicBulkRun pw w env (i + 1) rest).1 := rfl
    rw [hstep]
    cases j with
    | zero =>
      simp only [List.getElem?_cons_zero, Option.some.injEq] at h
      subst h
      simp
    | succ k =>
      simp only [List.getElem?_cons_succ] at h ⊢
      have hidx : i + 1 + k = i + (k + 1) := by omega
      rw [ih (i + 1) k d h, hidx]

theorem nicProcessOne_failed (pw : String → WhoisData) (w : Bool) (d : String)
    (o : FetchOutcome String) (h : fetchFailed o = true) :
    nicProcessOne pw w d o = nicFallback d := by
  cases o with
  | ok html => simp [fetchFailed] at h
  | notOk s => rfl
  | throws m => rfl

/-! ## Claim theorems for the NIC Chile driver -/

/-- Claim C9: a NIC Chile bulk call over N domains performs exactly N - 1
inter-request delays (one after every upstream request except the last),
whatever the outcome of each individual request. -/
theorem claim_c9_bulk_delay_count (pw : String → WhoisData) (w : Bool)
    (domains : List String) (env : Nat → FetchOutcome String) :
    searchNicChileBulkDelays pw w domains env = domains.length - 1 :=
  nicBulkRun_delays pw w env domains 0

/-- Claim C10: `normalizeDomain` is canonical and idempotent: its output
ends in `.cl`, contains no (ASCII) uppercase letter, has no leading or
trailing whitespace, and applying it twice equals applying it once. -/
theorem claim_c10_normalizeDomain_canonical (q : String) :
    clSuffix.isSuffixOf (normalizeDomain q).data = true ∧
    (normalizeDomain q).data.all (fun c => !isAsciiUpper c) = true ∧
    ((normalizeDomain q).data.head?).all (fun c => !jsIsWs c) = true ∧
    ((normalizeDomain q).data.getLast?).all (fun c => !jsIsWs c) = true ∧
    normalizeDomain (normalizeDomain q) = normalizeDomain q :=
  ⟨normalizeDomain_suffix q, normalizeDomain_noUpper q, normalizeDomain_head q,
   by rw [normalizeDomain_getLast]; rfl, normalizeDomain_idem q⟩

/-- Claim C6: in the NIC Chile bulk operation a per-domain failure yields
the conservative fallback record (`available = false`, no price, no WHOIS)
for that domain, every domain is still processed from its own request
outcome, and the bulk outcome's `error` field stays absent. -/
theorem claim_c6_nicchile_bulk_fallback (pw : String → WhoisData) (w : Bool)
    (domains : List String) (env : Nat → FetchOutcome String) (i : Nat) (d : String)
    (hd : domains[i]? = some d) (hfail : fetchFailed (env i) = true) :
    (searchNicChileBulk pw w domains env).error = none ∧
    (searchNicChileBulk pw w domains env).results.length = domains.length ∧
    (searchNicChileBulk pw w domains env).results[i]? =
      some (nicFallback (normalizeDomain d)) ∧
    (∀ (j : Nat) (e : String), domains[j]? = some e →
      (searchNicChileBulk pw w domains env).results[j]? =
        some (nicProcessOne pw w (normalizeDomain e) (env j))) := by
  refine ⟨rfl, nicBulkRun_length pw w env domains 0, ?_, ?_⟩
  · have h1 := nicBulkRun_getElem pw w env domains 0 i d hd
    rw [Nat.zero_add] at h1
    show (nicBulkRun pw w env 0 domains).1[i]? = some (nicFallback (normalizeDomain d))
    rw [h1, nicProcessOne_failed pw w _ _ hfail]
  · intro j e he
    have h1 := nicBulkRun_getElem pw w env domains 0 j e he
    rw [Nat.zero_add] at h1
    exact h1

theorem claim_c6_witness :
    (searchNicChileBulk nicDemoPw false ["aaa", "bbb"] nicDemoEnv).error = none ∧
    (searchNicChileBulk nicDemoPw false ["aaa", "bbb"] nicDemoEnv).results.length = 2 ∧
    (searchNicChileBulk nicDemoPw false ["aaa", "bbb"] nicDemoEnv).results[1]? =
      some (nicFallback (normalizeDomain "bbb")) := by
  have h := claim_c6_nicchile_bulk_fallback nicDemoPw false ["aaa", "bbb"] nicDemoEnv 1
    "bbb" (by rfl) (by rfl)
  exact ⟨h.1, h.2.1, h.2.2.1⟩

/-- Claim C5 (amended): for every WHOIS page body containing the
pending-deletion marker phrase and not containing the availability marker,
the parsed result has `available = false`, the pending-deletion status, no
price, and an explicitly null `whois` even when WHOIS data was requested. -/
theorem claim_c5_amended_pending_deletion (pw : String → WhoisData)
    (domain html : String) (w : Bool)
    (hpend : jsIncludes html DELETION_MARKER = true)
    (havail : jsIncludes html AVAILABLE_MARKER = false) :
    (parseDomainResult pw domain html w).available = false ∧
    (parseDomainResult pw domain html w).status = some "pending_deletion" ∧
    (parseDomainResult pw domain html w).price = none ∧
    (parseDomainResult pw domain html w).whois = some none := by
  simp [parseDomainResult, hpend, havail]

theorem claim_c5_witness :
    (parseDomainResult nicDemoPw "y.cl" DELETION_MARKER true).available = false ∧
    (parseDomainResult nicDemoPw "y.cl" DELETION_MARKER true).status =
      some "pending_deletion" ∧
    (parseDomainResult nicDemoPw "y.cl" DELETION_MARKER true).price = none ∧
    (parseDomainResult nicDemoPw "y.cl" DELETION_MARKER true).whois = some none :=
  claim_c5_amended_pending_deletion nicDemoPw "y.cl" DELETION_MARKER true
    (by decide) (by decide)

/-- Claim C5 counterexample: on a page body containing both markers the
parsed result has `available = true` together with the pending-deletion
status (and carries the fixed price), so the claimed mutual exclusion fails
over arbitrary page bodies. -/
theorem claim_c5_counterexample :
    (parseDomainResult nicDemoPw "x.cl" bothMarkersHtml true).available = true ∧
    (parseDomainResult nicDemoPw "x.cl" bothMarkersHtml true).status =
      some "pending_deletion" ∧
    (parseDomainResult nicDemoPw "x.cl" bothMarkersHtml true).price =
      some PRICE_USD :=
  ⟨by decide, by decide, by rfl⟩

/-! ## Lemmas about the porkbun polling loop -/

theorem pollAux_step_pending (env : Nat → FetchOutcome PorkbunResponse)
    (a fuel : Nat) (rs : List PorkbunCheckResult)
    (henv : env a = .ok ⟨some rs⟩) (hne : rs ≠ [])
    (hpend : rs.any (fun r => r.result == "PENDING") = true)
    (hlt : a < PORKBUN_MAX_ATTEMPTS - 1) :
    pollAux env a (fuel + 1) = pollAux env (a + 1) fuel := by
  have hempty : rs.isEmpty = false := by
    cases rs with
    | nil => exact absurd rfl hne
    | cons x t => rfl
  simp [pollAux, henv, hempty, hpend, hlt]

theorem pollAux_step_final (env : Nat → FetchOutcome PorkbunResponse)
    (a fuel : Nat) (rs : List PorkbunCheckResult)
    (henv : env a = .ok ⟨some rs⟩) (hne : rs ≠ [])
    (hge : ¬ a < PORKBUN_MAX_ATTEMPTS - 1) :
    pollAux env a (fuel + 1) =
      .ok ((rs.filter (fun r => !(r.result == "PENDING"))).map parsePorkbunResult) := by
  have hempty : rs.isEmpty = false := by
    cases rs with
    | nil => exact absurd rfl hne
    | cons x t => rfl
  simp [pollAux, henv, hempty, hge]

/-- Claim C3 (amended): if every attempt before the last returns a nonempty
all-PENDING batch and the final attempt returns a nonempty batch, the loop
polls through all ten attempts and returns the parses of the final batch
with its PENDING entries filtered out; hence when the final batch has no
PENDING entry the outcome covers every item of the final batch, while an
item still PENDING at the last attempt is omitted from the returned results
entirely (no entry with `available = false` is produced for it). -/
theorem claim_c3_poll_pending_resolution (respOf : Nat → List PorkbunCheckResult)
    (hne : ∀ i, i ≤ 9 → respOf i ≠ [])
    (hpend : ∀ i, i < 9 → (respOf i).any (fun r => r.result == "PENDING") = true) :
    pollForResults (fun i => .ok ⟨some (respOf i)⟩) =
      .ok (((respOf 9).filter (fun r => !(r.result == "PENDING"))).map parsePorkbunResult) ∧
    ((respOf 9).all (fun r => !(r.result == "PENDING")) = true →
      pollForResults (fun i => .ok ⟨some (respOf i)⟩) =
        .ok ((respOf 9).map parsePorkbunResult)) ∧
    (∀ out, out ∈ ((respOf 9).filter (fun r => !(r.result == "PENDING"))).map
        parsePorkbunResult →
      ∃ r, r ∈ respOf 9 ∧ (r.result == "PENDING") = false ∧
        out = parsePorkbunResult r) := by
  have hmain : pollForResults (fun i => .ok ⟨some (respOf i)⟩) =
      .ok (((respOf 9).filter (fun r => !(r.result == "PENDING"))).map parsePorkbunResult) := by
    have h0 := pollAux_step_pending (fun i => .ok ⟨some (respOf i)⟩) 0 9 (respOf 0) rfl
      (hne 0 (by omega)) (hpend 0 (by omega)) (by decide)
    have h1 := pollAux_step_pending (fun i => .ok ⟨some (respOf i)⟩) 1 8 (respOf 1) rfl
      (hne 1 (by omega)) (hpend 1 (by omega)) (by decide)
    have h2 := pollAux_step_pending (fun i => .ok ⟨some (respOf i)⟩) 2 7 (respOf 2) rfl
      (hne 2 (by omega)) (hpend 2 (by omega)) (by decide)
    have h3 := pollAux_step_pending (fun i => .ok ⟨some (respOf i)⟩) 3 6 (respOf 3) rfl
      (hne 3 (by omega)) (hpend 3 (by omega)) (by decide)
    have h4 := pollAux_step_pending (fun i => .ok ⟨some (respOf i)⟩) 4 5 (respOf 4) rfl
      (hne 4 (by omega)) (hpend 4 (by omega)) (by decide)
    have h5 := pollAux_step_pending (fun i => .ok ⟨some (respOf i)⟩) 5 4 (respOf 5) rfl
      (hne 5 (by omega)) (hpend 5 (by omega)) (by decide)
    have h6 := pollAux_step_pending (fun i => .ok ⟨some (respOf i)⟩) 6 3 (respOf 6) rfl
      (hne 6 (by omega)) (hpend 6 (by omega)) (by decide)
    have h7 := pollAux_step_pending (fun i => .ok ⟨some (respOf i)⟩) 7 2 (respOf 7) rfl
      (hne 7 (by omega)) (hpend 7 (by omega)) (by decide)
    have h8 := pollAux_step_pending (fun i => .ok ⟨some (respOf i)⟩) 8 1 (respOf 8) rfl
      (hne 8 (by omega)) (hpend 8 (by omega)) (by decide)
    have h9 := pollAux_step_final (fun i => .ok ⟨some (respOf i)⟩) 9 0 (respOf 9) rfl
      (hne 9 (by omega)) (by decide)
    show pollAux (fun i => .ok ⟨some (respOf i)⟩) 0 10 = _
    rw [show (10 : Nat) = 9 + 1 from rfl, h0, h1, h2, h3, h4, h5, h6, h7, h8, h9]
  refine ⟨hmain, ?_, ?_⟩
  · intro hall
    rw [hmain, List.filter_eq_self.mpr ?_]
    intro r hr
    exact List.all_eq_true.mp hall r hr
  · intro out hout
    obtain ⟨r, hr, rfl⟩ := List.mem_map.mp hout
    obtain ⟨hr9, hnp⟩ := List.mem_filter.mp hr
    exact ⟨r, hr9, by simpa using hnp, rfl⟩

theorem claim_c3_witness :
    pollForResults (fun i => .ok ⟨some (demoRespOf i)⟩) =
      .ok (((demoRespOf 9).filter (fun r => !(r.result == "PENDING"))).map
        parsePorkbunResult) :=
  (claim_c3_poll_pending_resolution demoRespOf (by decide) (by decide)).1

/-- Claim C3 counterexample: when an item is still PENDING at the last
attempt, the returned result list contains no entry for it at all (here the
list is empty), rather than an entry with `available = false` and no
price. -/
theorem claim_c3_counterexample :
    pollForResults allPendingEnv = .ok [] ∧
    (match pollForResults allPendingEnv with
     | .ok rs => rs.all (fun r => !(r.domain == "b.com"))
     | .error _ => false) = true :=
  ⟨by rfl, by rfl⟩

/-! ## Lemmas about porkbun price parsing -/

theorem pb_price_spec (r : PorkbunCheckResult) (p : Price)
    (hp : (parsePorkbunResult r).price = some p) :
    ∃ s n, pbRegCents r = some s ∧ (s == "") = false ∧ jsParseInt s = some n ∧
      p.registration = some ((n : Rat) / 100) ∧ p.currency = "USD" ∧
      (truthyStr (pbRenewCents r) = false → p.renewal = p.registration) ∧
      (∀ y, p.renewal = some y → ∃ m : Int, y = (m : Rat) / 100) := by
  simp only [parsePorkbunResult] at hp
  cases hrc : pbRegCents r with
  | none => rw [hrc] at hp; simp at hp
  | some s =>
    rw [hrc] at hp
    dsimp only at hp
    by_cases hs : (s == "") = true
    · simp [hs] at hp
    · rw [Bool.not_eq_true] at hs
      cases hn : jsParseInt s with
      | none => rw [hn] at hp; simp [hs] at hp
      | some n =>
        rw [hn] at hp
        cases hrn : pbRenewCents r with
        | none =>
          rw [hrn] at hp
          simp [hs] at hp
          refine ⟨s, n, rfl, hs, hn, ?_, ?_, ?_, ?_⟩ <;> rw [← hp]
          · intro _; rfl
          · intro y hy
            exact ⟨n, (Option.some.inj hy).symm⟩
        | some s2 =>
          rw [hrn] at hp
          by_cases hs2 : (s2 == "") = true
          · simp [hs, hs2] at hp
            refine ⟨s, n, rfl, hs, hn, ?_, ?_, ?_, ?_⟩ <;> rw [← hp]
            · intro _; rfl
            · intro y hy
              exact ⟨n, (Option.some.inj hy).symm⟩
          · rw [Bool.not_eq_true] at hs2
            simp [hs, hs2] at hp
            refine ⟨s, n, rfl, hs, hn, ?_, ?_, ?_, ?_⟩ <;> rw [← hp]
            · intro htr
              simp [truthyStr, hs2] at htr
            · intro y hy
              cases hn2 : jsParseInt s2 with
              | none => rw [hn2] at hy; simp at hy
              | some m =>
                rw [hn2] at hy
                simp only [Option.map_some'] at hy
                exact ⟨m, (Option.some.inj hy).symm⟩

/-- Claim C8: a porkbun registration price reported as the cent string
`"1999"` with no renewal price yields `{registration: 19.99, renewal:
19.99}`; in general the renewal equals the registration whenever the
upstream reports no (truthy) renewal cents string, and the cent strings are
converted by parsing and dividing by 100. -/
theorem claim_c8_price_normalization :
    (∀ (r : PorkbunCheckResult) (ext : PorkbunExtended), r.extended = some ext →
      ext.typePricingRegistrationPrice = none → ext.price = some "1999" →
      ext.typePricingRenewalPrice = none →
      (parsePorkbunResult r).price =
        some { registration := some ((1999 : Rat) / 100),
               renewal := some ((1999 : Rat) / 100), currency := "USD" } ∧
      (1999 : Rat) / 100 = 19.99) ∧
    (∀ (r : PorkbunCheckResult) (p : Price), truthyStr (pbRenewCents r) = false →
      (parsePorkbunResult r).price = some p → p.renewal = p.registration) ∧
    (∀ (r : PorkbunCheckResult) (p : Price) (s : String) (n : Int),
      pbRegCents r = some s → jsParseInt s = some n →
      (parsePorkbunResult r).price = some p →
      p.registration = some ((n : Rat) / 100)) := by
  refine ⟨?_, ?_, ?_⟩
  · intro r ext hext hreg hprice hrenew
    have hrc : pbRegCents r = some "1999" := by
      simp [pbRegCents, hext, hreg, hprice]
    have hrn : pbRenewCents r = none := by
      simp [pbRenewCents, hext, hrenew]
    have h1999 : jsParseInt "1999" = some 1999 := by decide
    have hne : ("1999" == "") = false := by decide
    constructor
    · simp only [parsePorkbunResult]
      rw [hrc]
      dsimp only
      rw [hrn, h1999]
      simp [hne]
    · norm_num
  · intro r p htr hp
    obtain ⟨s, n, _, _, _, _, _, himp, _⟩ := pb_price_spec r p hp
    exact himp htr
  · intro r p s n hrc hn hp
    obtain ⟨s2, n2, hrc2, _, hn2, hregeq, _, _, _⟩ := pb_price_spec r p hp
    have hss : s = s2 := Option.some.inj (hrc.symm.trans hrc2)
    subst hss
    have hnn : n = n2 := Option.some.inj (hn.symm.trans hn2)
    subst hnn
    exact hregeq

theorem claim_c8_witness :
    (parsePorkbunResult r1999).price =
      some { registration := some ((1999 : Rat) / 100),
             renewal := some ((1999 : Rat) / 100), currency := "USD" } ∧
    (1999 : Rat) / 100 = 19.99 :=
  claim_c8_price_normalization.1 r1999
    { premium := none, price := some "1999",
      typePricingRegistrationPrice := none, typePricingRenewalPrice := none }
    rfl rfl rfl rfl

/-! ## Price non-negativity lemmas -/

theorem parseFloatDigitsDots_nonneg (l : List Char) (x : Rat)
    (h : parseFloatDigitsDots l = some x) : 0 ≤ x := by
  unfold parseFloatDigitsDots at h
  split at h
  · dsimp only at h
    split at h
    · exact absurd h (by simp)
    · have hx := Option.some.inj h
      rw [← hx]
      positivity
  · dsimp only at h
    split at h
    · exact absurd h (by simp)
    · have hx := Option.some.inj h
      rw [← hx]
      positivity

theorem parsePrice_nonneg (s : String) (x : Rat) (h : parsePrice s = some x) : 0 ≤ x :=
  parseFloatDigitsDots_nonneg _ x h

theorem iwmy_price_nonneg (item : PrepareItem) (p : Price)
    (hp : iwmyPrice item = some p) :
    (∃ x, p.registration = some x ∧ 0 ≤ x) ∧ (∀ y, p.renewal = some y → 0 ≤ y) := by
  unfold iwmyPrice at hp
  cases hps : item.pricesUSDPrice with
  | none => rw [hps] at hp; simp at hp
  | some s =>
    rw [hps] at hp
    dsimp only at hp
    by_cases hs : (s == "") = true
    · simp [hs] at hp
    · rw [Bool.not_eq_true] at hs
      cases hreg : parsePrice s with
      | none => rw [hreg] at hp; simp [hs] at hp
      | some rv =>
        rw [hreg] at hp
        have hrv := parsePrice_nonneg s rv hreg
        cases hrn : item.renewalPricesUSD with
        | none =>
          rw [hrn] at hp
          simp [hs] at hp
          refine ⟨⟨rv, ?_, hrv⟩, ?_⟩ <;> rw [← hp]
          · intro y hy
            exact (Option.some.inj hy) ▸ hrv
        | some s2 =>
          rw [hrn] at hp
          by_cases hs2 : (s2 == "") = true
          · simp [hs, hs2] at hp
            refine ⟨⟨rv, ?_, hrv⟩, ?_⟩ <;> rw [← hp]
            · intro y hy
              exact (Option.some.inj hy) ▸ hrv
          · rw [Bool.not_eq_true] at hs2
            simp [hs, hs2] at hp
            refine ⟨⟨rv, ?_, hrv⟩, ?_⟩ <;> rw [← hp]
            · intro y hy
              cases hr2 : parsePrice s2 with
              | none => rw [hr2] at hy; simp at hy
              | some z =>
                rw [hr2] at hy
                have hz := parsePrice_nonneg s2 z hr2
                exact (Option.some.inj hy) ▸ hz

theorem nic_parse_price_eq (pw : String → WhoisData) (d h : String) (w : Bool)
    (p : Price) (hp : (parseDomainResult pw d h w).price = some p) : p = PRICE_USD := by
  simp only [parseDomainResult] at hp
  by_cases ha : jsIncludes h AVAILABLE_MARKER = true
  · simp [ha] at hp
    exact hp.symm
  · rw [Bool.not_eq_true] at ha
    simp [ha] at hp

theorem nic_process_price_eq (pw : String → WhoisData) (w : Bool) (d : String)
    (o : FetchOutcome String) (p : Price)
    (hp : (nicProcessOne pw w d o).price = some p) : p = PRICE_USD := by
  cases o with
  | ok html => exact nic_parse_price_eq pw d html w p hp
  | notOk s => simp [nicProcessOne, nicFallback] at hp
  | throws m => simp [nicProcessOne, nicFallback] at hp

/-- Claim C7 (amended): non-null prices are non-negative for the NIC Chile
driver (always the fixed 11.5 rate) and for the iwantmyname driver
(registration always, renewal whenever it is a number rather than NaN); for
porkbun the price fields are parsed cent-integers divided by 100, so they
are non-negative exactly when the upstream cent strings parse to
non-negative integers — a negative cents string yields a negative price. -/
theorem claim_c7_amended_price_nonneg :
    (∀ (pw : String → WhoisData) (d h : String) (w : Bool) (p : Price),
      (parseDomainResult pw d h w).price = some p → p = PRICE_USD) ∧
    (∀ (pw : String → WhoisData) (w : Bool) (d : String) (o : FetchOutcome String)
        (p : Price), (nicProcessOne pw w d o).price = some p → p = PRICE_USD) ∧
    (PRICE_USD.registration = some ((23 : Rat) / 2) ∧
      PRICE_USD.renewal = some ((23 : Rat) / 2) ∧ (0 : Rat) ≤ 23 / 2) ∧
    (∀ (item : PrepareItem) (p : Price), iwmyPrice item = some p →
      (∃ x, p.registration = some x ∧ 0 ≤ x) ∧ (∀ y, p.renewal = some y → 0 ≤ y)) ∧
    (∀ (r : PorkbunCheckResult) (p : Price), (parsePorkbunResult r).price = some p →
      (∃ s n, pbRegCents r = some s ∧ jsParseInt s = some n ∧
        p.registration = some ((n : Rat) / 100) ∧ (0 ≤ n → (0 : Rat) ≤ (n : Rat) / 100)) ∧
      (∀ y, p.renewal = some y →
        ∃ m : Int, y = (m : Rat) / 100 ∧ (0 ≤ m → 0 ≤ y))) := by
  refine ⟨nic_parse_price_eq, nic_process_price_eq, ⟨rfl, rfl, by norm_num⟩,
    iwmy_price_nonneg, ?_⟩
  intro r p hp
  obtain ⟨s, n, hrc, _, hn, hregeq, _, _, hren⟩ := pb_price_spec r p hp
  refine ⟨⟨s, n, hrc, hn, hregeq, ?_⟩, ?_⟩
  · intro hn0
    positivity
  · intro y hy
    obtain ⟨m, hm⟩ := hren y hy
    refine ⟨m, hm, ?_⟩
    intro hm0
    rw [hm]
    positivity

/-- Claim C7 counterexample: a porkbun response reporting the cents string
`"-500"` yields a non-null price object with negative registration and
renewal, refuting non-negativity over all upstream responses. -/
theorem claim_c7_counterexample :
    (parsePorkbunResult rNegCents).price =
      some { registration := some (-5 : Rat), renewal := some (-5 : Rat),
             currency := "USD" } ∧
    ¬ (0 : Rat) ≤ (-5 : Rat) := by
  constructor
  · have hneg : jsParseInt "-500" = some (-500) := by decide
    have hne : ("-500" == "") = false := by decide
    simp only [parsePorkbunResult]
    rw [show pbRegCents rNegCents = some "-500" from rfl]
    dsimp only
    rw [show pbRenewCents rNegCents = none from rfl, hneg]
    simp [hne]
    norm_num
  · norm_num

theorem claim_c7_witness :
    (parseDomainResult nicDemoPw "w.cl" AVAILABLE_MARKER false).price =
      some PRICE_USD ∧ (0 : Rat) ≤ 23 / 2 := by
  have hp : (parseDomainResult nicDemoPw "w.cl" AVAILABLE_MARKER false).price =
      some PRICE_USD := rfl
  have h1 := claim_c7_amended_price_nonneg.1 nicDemoPw "w.cl" AVAILABLE_MARKER false
    PRICE_USD hp
  exact ⟨h1 ▸ hp, claim_c7_amended_price_nonneg.2.2.1.2.2⟩

theorem chunksOf_cons (m : Nat) (a : α) (rest : List α) :
    chunksOf (m + 1) (a :: rest) =
      (a :: rest).take (m + 1) :: chunksOf (m + 1) (rest.drop m) := by
  simp only [chunksOf]

theorem chunksOf_45 (l : List String) (h : l.length = 45) :
    chunksOf 30 l = [l.take 30, l.drop 30] := by
  cases l with
  | nil => simp at h
  | cons a rest =>
    have h1 := chunksOf_cons 29 a rest
    have hdrop : rest.drop 29 = (a :: rest).drop 30 := rfl
    have hlen2 : ((a :: rest).drop 30).length = 15 := by
      rw [List.length_drop, h]
    cases h2 : (a :: rest).drop 30 with
    | nil => rw [h2] at hlen2; simp at hlen2
    | cons b rest2 =>
      have h3 := chunksOf_cons 29 b rest2
      have hlen3 : (b :: rest2).length = 15 := by rw [← h2]; exact hlen2
      have htake : (b :: rest2).take 30 = b :: rest2 :=
        List.take_of_length_le (by rw [hlen3]; omega)
      have hrest2 : rest2.drop 29 = [] := by
        apply List.drop_eq_nil_of_le
        have : rest2.length = 14 := by
          simpa using hlen3
        omega
      rw [h1, hdrop, h2, h3, htake, hrest2]
      simp only [chunksOf]

theorem prepParse_all_pending (items : List PrepareItem)
    (hdom : ∀ it ∈ items, (it.domain == "") = false)
    (hpend : ∀ it ∈ items, isPendingStatus it.status = true) :
    prepParse items =
      (items.map (fun it => iwmyItemResult it false),
       items.map (fun it => it.domain)) := by
  induction items with
  | nil => rfl
  | cons it rest ih =>
    have hd := hdom it (List.mem_cons_self it rest)
    have hpd := hpend it (List.mem_cons_self it rest)
    have hih := ih (fun x hx => hdom x (List.mem_cons_of_mem it hx))
      (fun x hx => hpend x (List.mem_cons_of_mem it hx))
    rw [isPendingStatus, Bool.and_eq_true, Bool.not_eq_true', Bool.not_eq_true'] at hpd
    obtain ⟨h1, h2⟩ := hpd
    simp only [prepParse, hd, h1, h2, Bool.false_eq_true, if_false, List.map_cons, hih]

theorem firstThrow_step (env : Nat → FetchOutcome CheckResponse) (i k : Nat)
    (h : isChunkThrow (env i) = false) :
    firstThrow env i (k + 1) = firstThrow env (i + 1) k := by
  cases he : env i with
  | throws m => rw [he] at h; simp [isChunkThrow] at h
  | notOk s => simp [firstThrow, he]
  | ok v => simp [firstThrow, he]

theorem collectChecks_step (env : Nat → FetchOutcome CheckResponse) (i k : Nat)
    (acc : List (String × Int)) (h : isChunkThrow (env i) = false) :
    collectChecks env i (k + 1) acc =
      collectChecks env (i + 1) k (recAssign acc (chunkMap (env i))) := by
  cases he : env i with
  | throws m => rw [he] at h; simp [isChunkThrow] at h
  | notOk s =>
    simp only [collectChecks, he, chunkMap]
    rfl
  | ok data =>
    cases hd : data.result with
    | none => simp [collectChecks, he, chunkMap, hd, recAssign]
    | some m => simp [collectChecks, he, chunkMap, hd]

theorem chunkMap_noData (o : FetchOutcome CheckResponse) (h : chunkNoData o = true) :
    chunkMap o = [] := by
  cases o with
  | throws m => simp [chunkNoData] at h
  | notOk s => rfl
  | ok data =>
    cases hd : data.result with
    | none => simp [chunkMap, hd]
    | some m => rw [chunkNoData, hd] at h; simp at h

theorem recAssign_nil_right (base : List (String × Int)) : recAssign base [] = base := rfl

theorem recLookup_recSet (m : List (String × Int)) (k key : String) (v : Int) :
    recLookup (recSet m k v) key =
      if k == key then some v else recLookup m key := by
  induction m with
  | nil =>
    simp only [recSet, recLookup]
  | cons kv rest ih =>
    obtain ⟨k0, v0⟩ := kv
    by_cases h1 : (k0 == k) = true
    · have hk : k0 = k := eq_of_beq h1
      subst hk
      simp only [recSet, h1, if_true, recLookup]
      by_cases h2 : (k0 == key) = true <;> simp [h2]
    · rw [Bool.not_eq_true] at h1
      simp only [recSet, h1, Bool.false_eq_true, if_false, recLookup, ih]
      by_cases h2 : (k0 == key) = true
      · have hk : k0 = key := eq_of_beq h2
        subst hk
        have hk2 : (k == k0) = false := by
          cases hkk : k == k0 with
          | false => rfl
          | true => rw [eq_of_beq hkk] at h1; simp at h1
        simp [h2, hk2]
      · rw [Bool.not_eq_true] at h2
        simp [h2]

theorem recLookup_eq_none_of_all (key : String) :
    ∀ (m : List (String × Int)) (acc : List (String × Int)),
      recLookup acc key = none → (∀ kv ∈ m, (kv.1 == key) = false) →
      recLookup (recAssign acc m) key = none := by
  intro m
  induction m with
  | nil => intro acc h _; exact h
  | cons kv rest ih =>
    obtain ⟨k0, v0⟩ := kv
    intro acc h hall
    simp only [recAssign]
    apply ih
    · rw [recLookup_recSet]
      have hk := hall (k0, v0) (List.mem_cons_self _ _)
      simp only at hk
      simp [hk, h]
    · intro x hx
      exact hall x (List.mem_cons_of_mem _ hx)

theorem recSet_ne_nil (m : List (String × Int)) (k : String) (v : Int) :
    recSet m k v ≠ [] := by
  cases m with
  | nil => simp [recSet]
  | cons kv rest =>
    obtain ⟨k0, v0⟩ := kv
    by_cases h : (k0 == k) = true <;> simp [recSet, h]

theorem recAssign_ne_nil :
    ∀ (m : List (String × Int)) (base : List (String × Int)), base ≠ [] →
      recAssign base m ≠ [] := by
  intro m
  induction m with
  | nil => intro base h; exact h
  | cons kv rest ih =>
    obtain ⟨k0, v0⟩ := kv
    intro base h
    simp only [recAssign]
    exact ih _ (recSet_ne_nil base k0 v0)

theorem recLookup_none_all (key : String) :
    ∀ m : List (String × Int), recLookup m key = none →
      ∀ kv ∈ m, (kv.1 == key) = false := by
  intro m
  induction m with
  | nil => intro _ kv hkv; exact absurd hkv (List.not_mem_nil kv)
  | cons kv0 rest ih =>
    obtain ⟨k0, v0⟩ := kv0
    intro h kv hkv
    by_cases hk : (k0 == key) = true
    · rw [recLookup, if_pos hk] at h
      exact absurd h (by simp)
    · rw [Bool.not_eq_true] at hk
      rw [recLookup, hk] at h
      simp only [Bool.false_eq_true, if_false] at h
      rcases List.mem_cons.mp hkv with rfl | hmem
      · exact hk
      · exact ih h kv hmem

/-- Claim C4: with 45 prepare items all classified as needing the secondary
check, exactly two secondary-check chunks are formed (sizes 30 and 15,
never more than 30), and when the second chunk's response is missing or
non-success its domains keep their prepare-phase pending availability value
(`false`) while the query still succeeds. -/
theorem claim_c4_secondary_check_chunking (dn : String) (items : List PrepareItem)
    (env : Nat → FetchOutcome CheckResponse)
    (h45 : items.length = 45)
    (hdom : ∀ it ∈ items, (it.domain == "") = false)
    (hpend : ∀ it ∈ items, isPendingStatus it.status = true)
    (hc0 : isChunkThrow (env 0) = false)
    (hc1 : chunkNoData (env 1) = true)
    (hkeys : ∀ it ∈ items.drop 30, recLookup (chunkMap (env 0)) it.domain = none) :
    (chunksOf 30 (items.map (fun it => it.domain))).length = 2 ∧
    (chunksOf 30 (items.map (fun it => it.domain))).map List.length = [30, 15] ∧
    (∀ c ∈ chunksOf 30 (items.map (fun it => it.domain)), c.length ≤ 30) ∧
    (doSearch dn ⟨.ok ⟨none, some items⟩, env⟩).error = none ∧
    (doSearch dn ⟨.ok ⟨none, some items⟩, env⟩).results.length = 45 ∧
    (∀ r ∈ (doSearch dn ⟨.ok ⟨none, some items⟩, env⟩).results.drop 30,
      r.available = false) := by
  have hpl : (items.map (fun it => it.domain)).length = 45 := by
    rw [List.length_map, h45]
  have hchunks := chunksOf_45 _ hpl
  have hlen1 : ((items.map (fun it => it.domain)).take 30).length = 30 := by
    rw [List.length_take, hpl]
    rfl
  have hlen2 : ((items.map (fun it => it.domain)).drop 30).length = 15 := by
    rw [List.length_drop, hpl]
  have hprep := prepParse_all_pending items hdom hpend
  have hne : (items.map (fun it => it.domain)).isEmpty = false := by
    cases hm : items.map (fun it => it.domain) with
    | nil => rw [hm] at hpl; simp at hpl
    | cons a r => rfl
  have hc1notthrow : isChunkThrow (env 1) = false := by
    cases he : env 1 with
    | throws m => rw [he] at hc1; simp [chunkNoData] at hc1
    | notOk s => rfl
    | ok d => rfl
  have hft2 : firstThrow env 0 2 = none := by
    calc firstThrow env 0 2 = firstThrow env 1 1 := firstThrow_step env 0 1 hc0
      _ = firstThrow env 2 0 := firstThrow_step env 1 0 hc1notthrow
      _ = none := rfl
  have hM : collectChecks env 0 2 [] = recAssign [] (chunkMap (env 0)) := by
    calc collectChecks env 0 2 []
        = collectChecks env 1 1 (recAssign [] (chunkMap (env 0))) :=
          collectChecks_step env 0 1 [] hc0
      _ = collectChecks env 2 0
            (recAssign (recAssign [] (chunkMap (env 0))) (chunkMap (env 1))) :=
          collectChecks_step env 1 0 _ hc1notthrow
      _ = recAssign (recAssign [] (chunkMap (env 0))) (chunkMap (env 1)) := rfl
      _ = recAssign [] (chunkMap (env 0)) := by
          rw [chunkMap_noData _ hc1, recAssign_nil_right]
  have hlenc : (chunksOf 30 (items.map (fun it => it.domain))).length = 2 := by
    rw [hchunks]; rfl
  have hca : checkAvailability (items.map (fun it => it.domain)) env =
      .ok (if (recAssign [] (chunkMap (env 0))).isEmpty then none
           else some (recAssign [] (chunkMap (env 0)))) := by
    simp only [checkAvailability]
    rw [hlenc, hft2, hM]
  have hlookNone : ∀ it ∈ items.drop 30,
      recLookup (recAssign [] (chunkMap (env 0))) it.domain = none := by
    intro it hit
    exact recLookup_eq_none_of_all it.domain (chunkMap (env 0)) [] rfl
      (recLookup_none_all it.domain (chunkMap (env 0)) (hkeys it hit))
  refine ⟨by rw [hchunks]; rfl, ?_, ?_, ?_⟩
  · rw [hchunks, List.map_cons, List.map_cons, List.map_nil, hlen1, hlen2]
  · intro c hc
    rw [hchunks] at hc
    rcases List.mem_cons.mp hc with rfl | hc2
    · rw [hlen1]
    · rcases List.mem_cons.mp hc2 with rfl | hc3
      · rw [hlen2]; omega
      · exact absurd hc3 (List.not_mem_nil c)
  by_cases hM0 : (recAssign [] (chunkMap (env 0))).isEmpty = true
  · have hout : doSearch dn ⟨.ok ⟨none, some items⟩, env⟩ =
        ⟨.iwantmyname, items.map (fun it => iwmyItemResult it false), none⟩ := by
      simp only [doSearch, Option.getD, truthyStr, hprep, hne, hca, hM0,
        Bool.false_eq_true, if_false, if_true]
    rw [hout]
    refine ⟨rfl, by rw [List.length_map, h45], ?_⟩
    intro r hr
    rw [← List.map_drop] at hr
    obtain ⟨it, hit, rfl⟩ := List.mem_map.mp hr
    rfl
  · rw [Bool.not_eq_true] at hM0
    have hout : doSearch dn ⟨.ok ⟨none, some items⟩, env⟩ =
        ⟨.iwantmyname, (items.map (fun it => iwmyItemResult it false)).map
          (applyCheck (recAssign [] (chunkMap (env 0)))), none⟩ := by
      simp only [doSearch, Option.getD, truthyStr, hprep, hne, hca, hM0,
        Bool.false_eq_true, if_false, if_true]
    rw [hout]
    refine ⟨rfl, by rw [List.length_map, List.length_map, h45], ?_⟩
    intro r hr
    rw [← List.map_drop, ← List.map_drop] at hr
    obtain ⟨r1, hr1, rfl⟩ := List.mem_map.mp hr
    obtain ⟨it, hit, rfl⟩ := List.mem_map.mp hr1
    have hlook := hlookNone it hit
    simp [applyCheck, iwmyItemResult, hlook]

theorem claim_c4_witness :
    (chunksOf 30 (demoItems45.map (fun it => it.domain))).map List.length = [30, 15] ∧
    (doSearch "dn" ⟨.ok ⟨none, some demoItems45⟩, demoChunkEnv⟩).error = none ∧
    (doSearch "dn" ⟨.ok ⟨none, some demoItems45⟩, demoChunkEnv⟩).results.length = 45 := by
  have h := claim_c4_secondary_check_chunking "dn" demoItems45 demoChunkEnv
    (by decide) (by decide) (by decide) (by decide) (by decide) (by decide)
  exact ⟨h.2.1, h.2.2.2.1, h.2.2.2.2.1⟩

/-! ## Error/result pairing and provider identity of every operation -/

theorem doSearch_error_empty (dn : String) (env : IwmyEnv) :
    (doSearch dn env).results = [] ∨ (doSearch dn env).error = none := by
  unfold doSearch
  cases hp : env.prepare with
  | throws m => left; rfl
  | notOk s => left; rfl
  | ok prep =>
    by_cases he : truthyStr prep.errMsg = true
    · simp [he]
    · rw [Bool.not_eq_true] at he
      simp only [he, Bool.false_eq_true, if_false]
      by_cases hpe : (prepParse (prep.data.getD [])).2.isEmpty = true
      · simp [hpe]
      · rw [Bool.not_eq_true] at hpe
        simp only [hpe, Bool.false_eq_true, if_false]
        cases hca : checkAvailability (prepParse (prep.data.getD [])).2 env.chunk with
        | error m => left; rfl
        | ok o =>
          cases o with
          | none => right; rfl
          | some m => right; rfl

theorem doSearch_provider (dn : String) (env : IwmyEnv) :
    (doSearch dn env).provider = .iwantmyname := by
  unfold doSearch
  cases hp : env.prepare with
  | throws m => rfl
  | notOk s => rfl
  | ok prep =>
    by_cases he : truthyStr prep.errMsg = true
    · simp [he]
    · rw [Bool.not_eq_true] at he
      simp only [he, Bool.false_eq_true, if_false]
      by_cases hpe : (prepParse (prep.data.getD [])).2.isEmpty = true
      · simp [hpe]
      · rw [Bool.not_eq_true] at hpe
        simp only [hpe, Bool.false_eq_true, if_false]
        cases hca : checkAvailability (prepParse (prep.data.getD [])).2 env.chunk with
        | error m => rfl
        | ok o =>
          cases o with
          | none => rfl
          | some m => rfl

theorem searchPorkbun_error_empty (q : String) (env : PorkbunEnv) :
    (searchPorkbun q env).results = [] ∨ (searchPorkbun q env).error = none := by
  unfold searchPorkbun
  cases hpg : env.page with
  | throws m => left; rfl
  | notOk s => left; rfl
  | ok page =>
    dsimp only
    cases hps : parseSession page with
    | none => left; rfl
    | some s =>
      dsimp only
      cases hpr : pollForResults env.poll with
      | error m => left; rfl
      | ok rs => right; rfl

theorem searchPorkbun_provider (q : String) (env : PorkbunEnv) :
    (searchPorkbun q env).provider = .porkbun := by
  unfold searchPorkbun
  cases hpg : env.page with
  | throws m => rfl
  | notOk s => rfl
  | ok page =>
    dsimp only
    cases hps : parseSession page with
    | none => rfl
    | some s =>
      dsimp only
      cases hpr : pollForResults env.poll with
      | error m => rfl
      | ok rs => rfl

theorem searchPorkbunBulk_error_empty (ds : List String) (env : PorkbunBulkEnv) :
    (searchPorkbunBulk ds env).results = [] ∨
      (searchPorkbunBulk ds env).error = none := by
  unfold searchPorkbunBulk
  rcases env with ⟨ini, bulk, poll⟩
  rcases ini with m | s | initData
  · left; rfl
  · left; rfl
  · dsimp only
    split
    · left; rfl
    · rcases bulk with m | s | bulkPage
      · left; rfl
      · left; rfl
      · dsimp only
        rcases hcid : bulkPage.checkIdMatch with _ | x
        · left; rfl
        · rcases hhash : bulkPage.searchHashMatch with _ | y
          · left; rfl
          · dsimp only
            rcases hpr : pollForResults poll with m | rs
            · left; rfl
            · right; rfl

theorem searchPorkbunBulk_provider (ds : List String) (env : PorkbunBulkEnv) :
    (searchPorkbunBulk ds env).provider = .porkbun := by
  unfold searchPorkbunBulk
  rcases env with ⟨ini, bulk, poll⟩
  rcases ini with m | s | initData
  · rfl
  · rfl
  · dsimp only
    split
    · rfl
    · rcases bulk with m | s | bulkPage
      · rfl
      · rfl
      · dsimp only
        rcases hcid : bulkPage.checkIdMatch with _ | x
        · rfl
        · rcases hhash : bulkPage.searchHashMatch with _ | y
          · rfl
          · dsimp only
            rcases hpr : pollForResults poll with m | rs
            · rfl
            · rfl

theorem searchNicChile_error_empty (pw : String → WhoisData) (q : String)
    (w : Bool) (env : FetchOutcome String) :
    (searchNicChile pw q w env).results = [] ∨
      (searchNicChile pw q w env).error = none := by
  cases env with
  | throws m => left; rfl
  | notOk s => left; rfl
  | ok html => right; rfl

theorem searchNicChile_provider (pw : String → WhoisData) (q : String)
    (w : Bool) (env : FetchOutcome String) :
    (searchNicChile pw q w env).provider = .nicchile := by
  cases env with
  | throws m => rfl
  | notOk s => rfl
  | ok html => rfl

/-- Claim C1: across all six provider operations and every upstream
response or failure, the returned `ProviderSearchResult` never carries both
a non-null `error` and a non-empty `results` list: whenever `error` is
present the result list is empty. -/
theorem claim_c1_error_implies_empty
    (pw : String → WhoisData) (query : String) (domains : List String)
    (w : Bool) (envIw envIwB : IwmyEnv) (envPb : PorkbunEnv)
    (envPbB : PorkbunBulkEnv) (envNic : FetchOutcome String)
    (envNicB : Nat → FetchOutcome String) :
    ((searchIwantmyname query envIw).results = [] ∨
      (searchIwantmyname query envIw).error = none) ∧
    ((searchIwantmynameBulk domains envIwB).results = [] ∨
      (searchIwantmynameBulk domains envIwB).error = none) ∧
    ((searchPorkbun query envPb).results = [] ∨
      (searchPorkbun query envPb).error = none) ∧
    ((searchPorkbunBulk domains envPbB).results = [] ∨
      (searchPorkbunBulk domains envPbB).error = none) ∧
    ((searchNicChile pw query w envNic).results = [] ∨
      (searchNicChile pw query w envNic).error = none) ∧
    ((searchNicChileBulk pw w domains envNicB).results = [] ∨
      (searchNicChileBulk pw w domains envNicB).error = none) :=
  ⟨doSearch_error_empty _ envIw, doSearch_error_empty _ envIwB,
   searchPorkbun_error_empty query envPb, searchPorkbunBulk_error_empty domains envPbB,
   searchNicChile_error_empty pw query w envNic, Or.inr rfl⟩

theorem searchIwantmyname_provider (q : String) (env : IwmyEnv) :
    (searchIwantmyname q env).provider = .iwantmyname :=
  doSearch_provider (jsTrimLower q) env

theorem searchIwantmynameBulk_provider (ds : List String) (env : IwmyEnv) :
    (searchIwantmynameBulk ds env).provider = .iwantmyname :=
  doSearch_provider (String.intercalate "\n" (ds.map jsTrimLower)) env

theorem searchNicChileBulk_provider (pw : String → WhoisData) (w : Bool)
    (ds : List String) (env : Nat → FetchOutcome String) :
    (searchNicChileBulk pw w ds env).provider = .nicchile := rfl

theorem filterExact_providers (rs : List ProviderSearchResult) (q : String) :
    (filterExact rs q).map (fun r => r.provider) = rs.map (fun r => r.provider) := by
  simp [filterExact, List.map_map, Function.comp]

theorem filterDomains_providers (rs : List ProviderSearchResult) (ds : List String) :
    (filterDomains rs ds).map (fun r => r.provider) = rs.map (fun r => r.provider) := by
  simp [filterDomains, List.map_map, Function.comp]

/-- Claim C2: the combined query and bulk-query handlers return exactly one
outcome per requested provider, in the request order (iwantmyname, porkbun,
nicchile), for every combination of provider environments — one provider's
failure never removes or reorders another provider's outcome. -/
theorem claim_c2_outcome_order (pw : String → WhoisData) (query : String)
    (domains : List String) (exactOnly whois : Bool) (envIw envIwB : IwmyEnv)
    (envPb : PorkbunEnv) (envPbB : PorkbunBulkEnv) (envNic : FetchOutcome String)
    (envNicB : Nat → FetchOutcome String) :
    (search_domains pw query exactOnly whois envIw envPb envNic).map
        (fun r => r.provider) = [.iwantmyname, .porkbun, .nicchile] ∧
    (search_domains pw query exactOnly whois envIw envPb envNic).length = 3 ∧
    (bulk_search_domains pw domains whois envIwB envPbB envNicB).map
        (fun r => r.provider) = [.iwantmyname, .porkbun, .nicchile] ∧
    (bulk_search_domains pw domains whois envIwB envPbB envNicB).length = 3 := by
  have hbase : ([searchIwantmyname query envIw, searchPorkbun query envPb,
      searchNicChile pw query whois envNic]).map (fun r => r.provider) =
      [.iwantmyname, .porkbun, .nicchile] := by
    rw [List.map_cons, List.map_cons, List.map_cons, List.map_nil,
      searchIwantmyname_provider, searchPorkbun_provider, searchNicChile_provider]
  have hbaseB : ([searchIwantmynameBulk domains envIwB,
      searchPorkbunBulk domains envPbB,
      searchNicChileBulk pw whois domains envNicB]).map (fun r => r.provider) =
      [.iwantmyname, .porkbun, .nicchile] := by
    rw [List.map_cons, List.map_cons, List.map_cons, List.map_nil,
      searchIwantmynameBulk_provider, searchPorkbunBulk_provider,
      searchNicChileBulk_provider]
  have h1 : (search_domains pw query exactOnly whois envIw envPb envNic).map
      (fun r => r.provider) = [.iwantmyname, .porkbun, .nicchile] := by
    unfold search_domains
    by_cases he : exactOnly = true
    · rw [if_pos he, filterExact_providers]
      exact hbase
    · rw [if_neg he]
      exact hbase
  have h2 : (bulk_search_domains pw domains whois envIwB envPbB envNicB).map
      (fun r => r.provider) = [.iwantmyname, .porkbun, .nicchile] := by
    unfold bulk_search_domains
    rw [filterDomains_providers]
    exact hbaseB
  refine ⟨h1, ?_, h2, ?_⟩
  · have := congrArg List.length h1
    simpa using this
  · have := congrArg List.length h2
    simpa using this
